import Mathlib

/-!
Verification of the teocs toolchain core: a two-pass Hack assembler
(`src/assembler/assembler.py`) and a VM-to-assembly translator
(`src/vmtranslator/src/VMtranslator.py`).  Source lines and emitted
assembly/machine-code lines are modelled as `List Char`; Python strings
become character lists, numeric counters become `Nat`, and Python's
lazily created attributes (`__retAddrCnt`, `__cnt`) become `Option Nat`.
-/

/-- Characters of a string literal (used to write line constants). -/
def chars (s : String) : List Char := s.toList

/-- The digit character for `d < 10`, i.e. Python's `str`/`bin` digit. -/
def digitChar (d : Nat) : Char := Char.ofNat (48 + d)

/-- Numeric value of a digit character (inverse of `digitChar`). -/
def digitVal (c : Char) : Nat := c.toNat - 48

/-- Accumulator worker shared by the models of Python's `str(n)` (base
`8+2`) and `bin(n)` (base `0+2`): peels digits from the low end,
prepending them to `acc`.  The first argument is recursion fuel (any
value `≥ n` gives the true digit string; callers pass `n` itself), kept
structural so the kernel can evaluate the function. -/
def digitsGo (b : Nat) : Nat → Nat → List Char → List Char
  | _, 0, acc => acc
  | 0, _ + 1, acc => acc
  | f + 1, n + 1, acc =>
    digitsGo b f ((n + 1) / (b + 2)) (digitChar ((n + 1) % (b + 2)) :: acc)

/-- The base-`b+2` digit string of `n` (empty for `n = 0`). -/
def natDigits (b n : Nat) : List Char := digitsGo b n n []

/-- Model of Python `str(n)` for a natural number `n`. -/
def natToDec (n : Nat) : List Char := if n = 0 then [digitChar 0] else natDigits 8 n

/-- Model of the digit part of Python `bin(n)` (without the `0b` prefix). -/
def natToBin (n : Nat) : List Char := if n = 0 then [digitChar 0] else natDigits 0 n

/-- Reads a digit list back as a number in base `b + 2`. -/
def ofDigits (b : Nat) (ds : List Char) : Nat :=
  ds.foldl (fun a c => (b + 2) * a + digitVal c) 0

theorem digitsGo_acc (b : Nat) :
    ∀ n f acc, n ≤ f → digitsGo b f n acc = natDigits b n ++ acc := by
  intro n
  induction n using Nat.strong_induction_on with
  | _ n ih =>
    intro f acc hf
    match n, f with
    | 0, f => simp [digitsGo, natDigits]
    | m + 1, f + 1 =>
      have hq : (m + 1) / (b + 2) < m + 1 := Nat.div_lt_self (Nat.succ_pos m) (by omega)
      have hqm : (m + 1) / (b + 2) ≤ m := Nat.lt_succ_iff.mp hq
      have hqf : (m + 1) / (b + 2) ≤ f :=
        le_trans hqm (Nat.succ_le_succ_iff.mp hf)
      have hr : natDigits b (m + 1)
          = natDigits b ((m + 1) / (b + 2)) ++ [digitChar ((m + 1) % (b + 2))] := by
        rw [natDigits, digitsGo, ih ((m + 1) / (b + 2)) hq m _ hqm]
      rw [digitsGo, ih ((m + 1) / (b + 2)) hq f _ hqf, hr, List.append_assoc]
      simp

theorem natDigits_peel (b n : Nat) (h : 0 < n) :
    natDigits b n = natDigits b (n / (b + 2)) ++ [digitChar (n % (b + 2))] := by
  match n, h with
  | m + 1, _ =>
    have hq : (m + 1) / (b + 2) ≤ m :=
      Nat.lt_succ_iff.mp (Nat.div_lt_self (Nat.succ_pos m) (by omega))
    rw [natDigits, digitsGo,
      digitsGo_acc b ((m + 1) / (b + 2)) m [digitChar ((m + 1) % (b + 2))] hq]

theorem digitVal_digitChar (d : Nat) (h : d < 10) : digitVal (digitChar d) = d := by
  interval_cases d <;> decide

/-- Folding digits back recovers the number: `natDigits` is a faithful
positional representation (needs base `b + 2 ≤ 10` so digits stay decimal). -/
theorem ofDigits_natDigits (b : Nat) (hb : b ≤ 8) :
    ∀ n, ofDigits b (natDigits b n) = n := by
  intro n
  induction n using Nat.strong_induction_on with
  | _ n ih =>
    match n with
    | 0 => simp [natDigits, digitsGo, ofDigits]
    | m + 1 =>
      rw [natDigits_peel b (m + 1) (Nat.succ_pos m)]
      have hdiv := Nat.div_lt_self (Nat.succ_pos m) (show 1 < b + 2 by omega)
      have hrec := ih ((m + 1) / (b + 2)) hdiv
      unfold ofDigits at hrec ⊢
      rw [List.foldl_append, hrec, List.foldl_cons, List.foldl_nil,
        digitVal_digitChar ((m + 1) % (b + 2)) (by
          have := Nat.mod_lt (m + 1) (show 0 < b + 2 by omega)
          omega)]
      exact Nat.div_add_mod (m + 1) (b + 2)

theorem natToDec_inj {m n : Nat} (h : natToDec m = natToDec n) : m = n := by
  have hm := ofDigits_natDigits 8 (by omega) m
  have hn := ofDigits_natDigits 8 (by omega) n
  by_cases h0 : m = 0 <;> by_cases h1 : n = 0
  · omega
  · rw [natToDec, natToDec, if_pos h0, if_neg h1] at h
    rw [← hn, ← h] at h1
    simp [ofDigits, digitVal_digitChar] at h1
  · rw [natToDec, natToDec, if_neg h0, if_pos h1] at h
    rw [← hm, h] at h0
    simp [ofDigits, digitVal_digitChar] at h0
  · rw [natToDec, natToDec, if_neg h0, if_neg h1] at h
    rw [← hm, ← hn, h]

/-! ## Assembler: `dec2bin` (assembler.py lines 326-331)

`dec2bin(nbr)` computes `bin(int(nbr))` and matches it against
`^0b[01]*?([01]{,15}$)`: the lazy star makes the group capture the last
`min(len, 15)` binary digits, which are then left-padded with `0` to 15
characters.  `padTrunc` is that regex's effect on the digit list. -/

/-- Keep the last `k` characters of `s` and left-pad with `0` to width `k`
(the effect of the `[01]*?([01]{,15}$)` capture plus the padding loop). -/
def padTrunc (k : Nat) (s : List Char) : List Char :=
  List.replicate (k - s.length) (digitChar 0) ++ s.drop (s.length - k)

/-- Model of `dec2bin` from the source: binary digits of `n`, truncated to
the low 15 and zero-padded to width 15. -/
def dec2bin (n : Nat) : List Char := padTrunc 15 (natToBin n)

/-- Spec-side definition ("the 15-bit unsigned binary encoding of the
resolved address, zero-padded on the left", generalized to width `k`):
bit `i` of the word is `n / 2^(k-1-i) % 2`. -/
def bitsFixed : Nat → Nat → List Char
  | 0, _ => []
  | k + 1, n => bitsFixed k (n / 2) ++ [digitChar (n % 2)]

theorem bitsFixed_zero : ∀ k, bitsFixed k 0 = List.replicate k (digitChar 0) := by
  intro k
  induction k with
  | zero => rfl
  | succ k ih =>
    rw [bitsFixed, Nat.zero_div, Nat.zero_mod, ih, List.replicate_succ']

theorem bitsFixed_length : ∀ k n, (bitsFixed k n).length = k := by
  intro k
  induction k with
  | zero => intro n; rfl
  | succ k ih => intro n; simp [bitsFixed, ih]

theorem padTrunc_concat (k : Nat) (xs : List Char) (c : Char) :
    padTrunc (k + 1) (xs ++ [c]) = padTrunc k xs ++ [c] := by
  unfold padTrunc
  rw [List.length_append, List.length_singleton,
    show xs.length + 1 - (k + 1) = xs.length - k by omega,
    List.drop_append_of_le_length (Nat.sub_le xs.length k),
    show k + 1 - (xs.length + 1) = k - xs.length by omega, List.append_assoc]

/-- The regex truncation applied to `bin(n)`'s digits equals the fixed-width
big-endian encoding of `n` (hence of `n mod 2^k`). -/
theorem padTrunc_natDigits : ∀ n k, padTrunc k (natDigits 0 n) = bitsFixed k n := by
  intro n
  induction n using Nat.strong_induction_on with
  | _ n ih =>
    intro k
    match n with
    | 0 =>
      rw [show natDigits 0 0 = [] from rfl, bitsFixed_zero]
      simp [padTrunc]
    | m + 1 =>
      rw [natDigits_peel 0 (m + 1) (Nat.succ_pos m)]
      match k with
      | 0 =>
        show padTrunc 0 _ = []
        simp [padTrunc]
      | k + 1 =>
        rw [padTrunc_concat, bitsFixed,
          ih ((m + 1) / 2) (Nat.div_lt_self (Nat.succ_pos m) (by omega)) k]

theorem bitsFixed_mod : ∀ k n, bitsFixed k n = bitsFixed k (n % 2 ^ k) := by
  intro k
  induction k with
  | zero => intro n; rfl
  | succ k ih =>
    intro n
    rw [bitsFixed, bitsFixed, ih (n / 2),
      show n % 2 ^ (k + 1) / 2 = n / 2 % 2 ^ k by
        rw [pow_succ, mul_comm, Nat.mod_mul_right_div_self],
      show n % 2 ^ (k + 1) % 2 = n % 2 by
        exact Nat.mod_mod_of_dvd n ⟨2 ^ k, by rw [pow_succ, mul_comm]⟩]

theorem dec2bin_eq_bitsFixed (n : Nat) : dec2bin n = bitsFixed 15 n := by
  unfold dec2bin natToBin
  by_cases h : n = 0
  · rw [if_pos h, h, bitsFixed_zero]
    show padTrunc 15 [digitChar 0] = _
    simp [padTrunc, digitChar, List.replicate_succ']
  · rw [if_neg h, padTrunc_natDigits]

theorem bitsFixed_chars : ∀ k n c, c ∈ bitsFixed k n → c = '0' ∨ c = '1' := by
  intro k
  induction k with
  | zero => intro n c h; simp [bitsFixed] at h
  | succ k ih =>
    intro n c h
    rw [bitsFixed] at h
    rcases List.mem_append.mp h with h1 | h2
    · exact ih (n / 2) c h1
    · have : c = digitChar (n % 2) := by simpa using h2
      rcases Nat.mod_two_eq_zero_or_one n with h0 | h0 <;> rw [h0] at this
      · left; rw [this]; rfl
      · right; rw [this]; rfl

/-- The word an A-instruction emits for resolved address `a`
(`hackstr = '0' + dec2bin(symbol)`, assembler.py line 406). -/
def aWord (a : Nat) : List Char := '0' :: dec2bin a

/-! ## VM translator: CodeWriter state and helpers
(VMtranslator.py, class `CodeWriter`)

Python strings are `List Char`; the lazily created attributes
`__retAddrCnt` and `__cnt` are `Option Nat` (`none` = not yet created). -/

namespace VM

/-- CodeWriter state: `__fileName`, `__functionName`, the comparison
counter `__cnt` and the return-address counter `__retAddrCnt`. -/
structure WState where
  fileName : List Char
  functionName : List Char
  cmpCnt : Option Nat
  retCnt : Option Nat
deriving Repr, DecidableEq

/-- Model of `os.path.basename`: the part after the last `/`. -/
def baseName (s : List Char) : List Char :=
  s.foldl (fun acc c => if c = '/' then [] else acc ++ [c]) []

/-- Model of Python `str.rstrip(set)`: drop trailing characters that are
members of `set` (a character SET, not a suffix). -/
def rstrip (set s : List Char) : List Char :=
  (s.reverse.dropWhile (fun c => set.contains c)).reverse

/-- Spec-side definition: "basename of the current input `.vm` file without
extension", i.e. remove exactly the given suffix string when present. -/
def stripSuffix (suf s : List Char) : List Char :=
  if suf.isSuffixOf s then s.take (s.length - suf.length) else s

/-- Model of `re.match(lit, s)` for a literal pattern: prefix test. -/
def pMatch (p : String) (s : List Char) : Bool := (chars p).isPrefixOf s

/-- `CodeWriter.__init__(fileName)` (lines 171-174): `__fileName` is the
output basename with trailing `.asm`-set characters stripped and
`__functionName` is the FULL output path. -/
def initWriter (outName : List Char) : WState :=
  { fileName := rstrip (chars ".asm") (baseName outName)
    functionName := outName
    cmpCnt := none
    retCnt := none }

/-- `CodeWriter.setFileName` (lines 183-185): reset `__fileName` from the
new input path and set `__functionName` to the same short name. -/
def setFileName (st : WState) (fileName : List Char) : WState :=
  { st with
    fileName := rstrip (chars ".vm") (baseName fileName)
    functionName := rstrip (chars ".vm") (baseName fileName) }

/-- `CodeWriter.__incSP` (lines 672-675). -/
def incSP : List (List Char) := [chars "@SP", chars "M=M+1"]

/-- `CodeWriter.__pushVal(addr)` (lines 559-570). -/
def pushVal (addr : List Char) : List (List Char) :=
  ['@' :: addr, chars "D=M", chars "@SP", chars "A=M", chars "M=D"] ++ incSP

/-- `CodeWriter.__preArithCommandCode` (lines 686-699). -/
def preArith (isUnary : Bool) : List (List Char) :=
  (if isUnary then [] else [chars "@SP", chars "M=M-1", chars "A=M", chars "D=M"])
    ++ [chars "@SP", chars "M=M-1", chars "A=M"]

/-- The value of `__retAddrCnt` used by the next `writeCall`
(the `try: += 1 / except: = 0` at lines 392-398). -/
def nextRetCnt : Option Nat → Nat
  | none => 0
  | some k => k + 1

/-- The unique return-address label `<f>$returnAddr<k>` (line 400). -/
def retLabel (f : List Char) (k : Nat) : List Char :=
  f ++ chars "$returnAddr" ++ natToDec k

/-- The four saved pointers pushed by `writeCall` (line 419). -/
def savedPtrs : List (List Char) :=
  [chars "LCL", chars "ARG", chars "THIS", chars "THAT"]

/-- `CodeWriter.writeCall` (lines 387-454): emitted lines and the new
`__retAddrCnt`. -/
def writeCall (f : List Char) (numArgs : Nat) (rc : Option Nat) :
    List (List Char) × Option Nat :=
  let k := nextRetCnt rc
  let lbl := retLabel f k
  ((chars "// call " ++ f ++ ' ' :: natToDec numArgs)
      :: ['@' :: lbl, chars "D=A", chars "@SP", chars "A=M", chars "M=D"]
      ++ incSP
      ++ savedPtrs.flatMap (fun v => (chars "// push " ++ v) :: pushVal v)
      ++ [chars "// ARG = SP-numArgs-5", chars "@SP", chars "D=M"]
      ++ (if numArgs ≠ 0 then ['@' :: natToDec numArgs, chars "D=D-A"] else [])
      ++ [chars "@5", chars "D=D-A", chars "@ARG", chars "M=D"]
      ++ [chars "// LCL = SP", chars "@SP", chars "D=M", chars "@LCL", chars "M=D"]
      ++ [chars "// goto " ++ f, '@' :: f, chars "0;JMP"]
      ++ [chars "// declare label for the return address", '(' :: lbl ++ [')']],
    some k)

/-- The value of `__cnt` used by a comparison (`try/except` at 645-648). -/
def curCmpCnt : Option Nat → Nat
  | none => 0
  | some k => k

/-- `CodeWriter.__lteqgt(command)` (lines 641-664): the lines after the
binary prologue, and the new `__cnt`. -/
def lteqgt (command : List Char) (cc : Option Nat) :
    List (List Char) × Option Nat :=
  let k := curCmpCnt cc
  let lbl := command.map Char.toUpper ++ natToDec k
  ([chars "D=M-D", chars "M=-1",
    '@' :: lbl,
    chars "D;" ++ 'J' :: command.map Char.toUpper,
    chars "@SP", chars "A=M", chars "M=0",
    '(' :: lbl ++ [')']],
   some (k + 1))

/-- `CodeWriter.writeArithmetic` (lines 194-221). -/
def writeArithmetic (command : List Char) (cc : Option Nat) :
    List (List Char) × Option Nat :=
  let isUnary := pMatch "neg" command || pMatch "not" command
  let hdr := chars "// " ++ command
  let pre := preArith isUnary
  if pMatch "add" command then (hdr :: pre ++ [chars "M=D+M"] ++ incSP, cc)
  else if pMatch "sub" command then (hdr :: pre ++ [chars "M=M-D"] ++ incSP, cc)
  else if pMatch "neg" command then (hdr :: pre ++ [chars "M=-M"] ++ incSP, cc)
  else if pMatch "and" command then (hdr :: pre ++ [chars "M=D&M"] ++ incSP, cc)
  else if pMatch "or" command then (hdr :: pre ++ [chars "M=D|M"] ++ incSP, cc)
  else if pMatch "not" command then (hdr :: pre ++ [chars "M=!M"] ++ incSP, cc)
  else
    let (body, cc') := lteqgt command cc
    (hdr :: pre ++ body ++ incSP, cc')

/-- `CodeWriter.__baseaddr` (lines 605-632). -/
def baseaddr (fileName segment : List Char) (index : Nat) : List (List Char) :=
  if pMatch "argument" segment then [chars "@ARG"]
  else if pMatch "local" segment then [chars "@LCL"]
  else if pMatch "static" segment then ['@' :: (fileName ++ '.' :: natToDec index)]
  else if pMatch "constant" segment then ['@' :: natToDec index, chars "D=A"]
  else if pMatch "this" segment then [chars "@THIS"]
  else if pMatch "that" segment then [chars "@THAT"]
  else if pMatch "pointer" segment then ['@' :: natToDec (3 + index)]
  else ['@' :: natToDec (5 + index)]

/-- `CodeWriter.writePushPop` (lines 252-321); `isPush` selects the
`C_PUSH` branch. -/
def writePushPop (isPush : Bool) (fileName segment : List Char) (index : Nat) :
    List (List Char) :=
  if isPush then
    (chars "// push " ++ segment ++ ' ' :: natToDec index)
      :: baseaddr fileName segment index
      ++ (if ¬ (pMatch "static" segment || pMatch "constant" segment
            || pMatch "pointer" segment || pMatch "temp" segment) then
            if index = 0 then [chars "A=M"]
            else if index = 1 then [chars "A=M", chars "A=A+1"]
            else [chars "D=M", '@' :: natToDec index, chars "A=D+A"]
          else [])
      ++ (if ¬ pMatch "constant" segment then [chars "D=M"] else [])
      ++ [chars "@SP", chars "A=M", chars "M=D"]
      ++ incSP
  else
    (chars "// pop " ++ segment ++ ' ' :: natToDec index)
      :: [chars "@SP", chars "M=M-1"]
      ++ (if ¬ pMatch "constant" segment then
            [chars "A=M", chars "D=M"]
              ++ baseaddr fileName segment index
              ++ (if ¬ (pMatch "static" segment || pMatch "pointer" segment
                    || pMatch "temp" segment) then
                    chars "A=M" :: List.replicate index (chars "A=A+1")
                  else [])
              ++ [chars "M=D"]
          else [])

/-- `CodeWriter.writeLabel` (lines 338-341). -/
def writeLabel (st : WState) (l : List Char) : List (List Char) :=
  [chars "// label " ++ l, '(' :: (st.functionName ++ '$' :: l) ++ [')']]

/-- `CodeWriter.writeIf` (lines 349-366). -/
def writeIf (st : WState) (l : List Char) : List (List Char) :=
  [chars "// if " ++ l, chars "@SP", chars "M=M-1", chars "A=M", chars "D=M",
   '@' :: (st.functionName ++ '$' :: l), chars "D;JNE"]

/-- `CodeWriter.writeGoto` (lines 374-378). -/
def writeGoto (st : WState) (l : List Char) : List (List Char) :=
  [chars "// goto " ++ l, '@' :: (st.functionName ++ '$' :: l), chars "0;JMP"]

/-- `CodeWriter.writeFunction` (lines 463-481): lines and new
`__functionName`. -/
def writeFunction (f : List Char) (numLocals : Nat) : List (List Char) :=
  (chars "// function " ++ f ++ ' ' :: natToDec numLocals)
    :: ('(' :: f ++ [')'])
    :: (List.replicate numLocals
        ([chars "@SP", chars "A=M", chars "M=0"] ++ incSP)).flatten

/-- `CodeWriter.__offset(resVar, offsetVar, offset)` (lines 584-595). -/
def offsetCode (resVar offsetVar : List Char) (offset : Nat) : List (List Char) :=
  ['@' :: offsetVar, chars "D=M", '@' :: natToDec offset, chars "D=D-A",
   chars "A=D", chars "D=M", '@' :: resVar, chars "M=D"]

/-- `CodeWriter.writeReturn` (lines 489-550). -/
def writeReturn (st : WState) : List (List Char) :=
  let frame := st.functionName ++ chars "$FRAME"
  let returnAddr := st.functionName ++ chars "$RET"
  [chars "// return", chars "// FRAME = LCL", chars "@LCL", chars "D=M",
   '@' :: frame, chars "M=D", chars "// RET = *(FRAME-5)"]
    ++ offsetCode returnAddr frame 5
    ++ [chars "// *ARG=pop()", chars "@SP", chars "M=M-1", chars "A=M", chars "D=M",
        chars "@ARG", chars "A=M", chars "M=D",
        chars "// SP=ARG+1", chars "@ARG", chars "D=M+1", chars "@SP", chars "M=D",
        chars "// THAT = *(FRAME-1)"]
    ++ offsetCode (chars "THAT") frame 1
    ++ [chars "// THIS = *(FRAME-2)"]
    ++ offsetCode (chars "THIS") frame 2
    ++ [chars "// ARG = *(FRAME-3)"]
    ++ offsetCode (chars "ARG") frame 3
    ++ [chars "// LCL = *(FRAME-4)"]
    ++ offsetCode (chars "LCL") frame 4
    ++ [chars "// goto RET", '@' :: returnAddr, chars "A=M", chars "0;JMP"]

/-- `CodeWriter.writeInit` (lines 231-241): bootstrap then
`call Sys.init 0`. -/
def writeInit (st : WState) : List (List Char) × WState :=
  let (callLines, rc) := writeCall (chars "Sys.init") 0 st.retCnt
  ([chars "// bootstrap code", chars "@256", chars "D=A", chars "@SP", chars "M=D"]
     ++ callLines,
   { st with retCnt := rc })

end VM

namespace VM

/-- Model of `re.split(r'\s+', line)` on a cleaned line (after `advance`
collapsed whitespace runs to single spaces): split on `' '`. -/
def splitSp : List Char → List (List Char)
  | [] => [[]]
  | c :: rest =>
    match splitSp rest with
    | [] => [[c]]
    | t :: ts => if c = ' ' then [] :: t :: ts else (c :: t) :: ts

/-- The classification returned by `Parser.commandType`
(VMtranslator.py lines 9-18): the nine command kinds plus `C_UNKNOWN`,
whose branch prints a diagnostic and exits (lines 123-125). -/
inductive CmdK where
  | arith | push | pop | lbl | goto | ifGoto | func | ret | call | unknown
deriving Repr, DecidableEq

/-- `Parser.commandType` (lines 89-127).  Each `re.match(p, s)` test is a
prefix test (`pMatch`), exactly as Python's `re.match` anchors only at the
start. -/
def commandType (line : List Char) : CmdK :=
  match splitSp line with
  | [e0] =>
    if pMatch "return" e0 then CmdK.ret
    else if pMatch "add" e0 || pMatch "sub" e0 || pMatch "neg" e0 || pMatch "eq" e0
        || pMatch "gt" e0 || pMatch "lt" e0 || pMatch "and" e0 || pMatch "or" e0
        || pMatch "not" e0 then CmdK.arith
    else CmdK.unknown
  | [e0, _] =>
    if pMatch "label" e0 then CmdK.lbl
    else if pMatch "goto" e0 then CmdK.goto
    else if pMatch "if-goto" e0 then CmdK.ifGoto
    else CmdK.unknown
  | [e0, _, _] =>
    if pMatch "function" e0 then CmdK.func
    else if pMatch "call" e0 then CmdK.call
    else if pMatch "push" e0 then CmdK.push
    else if pMatch "pop" e0 then CmdK.pop
    else CmdK.unknown
  | _ => CmdK.unknown

/-- A parsed VM command, as dispatched by `main` (lines 754-774) from
`commandType`/`arg1`/`arg2`. -/
inductive VmCmd where
  | arith (op : List Char)
  | push (seg : List Char) (i : Nat)
  | pop (seg : List Char) (i : Nat)
  | lbl (l : List Char)
  | goto (l : List Char)
  | ifGoto (l : List Char)
  | func (f : List Char) (n : Nat)
  | ret
  | call (f : List Char) (n : Nat)
deriving Repr, DecidableEq

/-- One iteration of `main`'s dispatch loop (lines 756-774): the emitted
lines and the updated CodeWriter state. -/
def execCmd (st : WState) : VmCmd → List (List Char) × WState
  | .arith op =>
    let p := writeArithmetic op st.cmpCnt
    (p.1, { st with cmpCnt := p.2 })
  | .push seg i => (writePushPop true st.fileName seg i, st)
  | .pop seg i => (writePushPop false st.fileName seg i, st)
  | .lbl l => (writeLabel st l, st)
  | .goto l => (writeGoto st l, st)
  | .ifGoto l => (writeIf st l, st)
  | .func f n => (writeFunction f n, { st with functionName := f })
  | .ret => (writeReturn st, st)
  | .call f n =>
    let p := writeCall f n st.retCnt
    (p.1, { st with retCnt := p.2 })

/-- Translation of one input file's command stream. -/
def processCmds (st : WState) : List VmCmd → List (List Char) × WState
  | [] => ([], st)
  | c :: cs =>
    let p := execCmd st c
    let r := processCmds p.2 cs
    (p.1 ++ r.1, r.2)

/-- `main`'s loop over the input files after the first one: each of these
files is announced with `setFileName` before its commands are translated
(lines 735-742). -/
def translateRest (st : WState) :
    List (List Char × List VmCmd) → List (List Char) × WState
  | [] => ([], st)
  | (name, cmds) :: fs =>
    let st0 := setFileName st name
    let p := processCmds st0 cmds
    let r := translateRest p.2 fs
    (p.1 ++ r.1, r.2)

/-- `main` (lines 734-777): on the first file the CodeWriter is
constructed from the OUTPUT file name and `writeInit` runs (no
`setFileName`); every later file gets a `setFileName` effect.  `none` for
an empty file list (there `main` crashes closing a writer that was never
created). -/
def translate (outName : List Char) :
    List (List Char × List VmCmd) → Option (List (List Char) × WState)
  | [] => none
  | (_, cmds) :: fs =>
    let b := writeInit (initWriter outName)
    let p := processCmds b.2 cmds
    let r := translateRest p.2 fs
    some (b.1 ++ p.1 ++ r.1, r.2)

end VM

theorem cons_ne_cons_of_ne {a b : Char} {s t : List Char} (h : a ≠ b) :
    a :: s ≠ b :: t := by
  intro he
  exact h (List.cons.inj he).1

theorem not_prefix_of_head_ne {p c : Char} {ps t : List Char} (h : p ≠ c) :
    ¬ (p :: ps).isPrefixOf (c :: t) = true := by
  intro hp
  change (p == c && ps.isPrefixOf t) = true at hp
  exact h (beq_iff_eq.mp (Bool.and_eq_true_iff.mp hp).1)

namespace VM

/-- The base-pointer symbol used by `__baseaddr` for the four indirect
segments. -/
def segBase (seg : List Char) : List Char :=
  if seg = chars "argument" then chars "ARG"
  else if seg = chars "local" then chars "LCL"
  else if seg = chars "this" then chars "THIS"
  else if seg = chars "that" then chars "THAT"
  else []

/-- The line sequence claim C10 predicts for `pop <seg> <n>` on an
indirect segment with base symbol `base`. -/
def popLines (seg base : List Char) (n : Nat) : List (List Char) :=
  (chars "// pop " ++ seg ++ ' ' :: natToDec n)
    :: chars "@SP" :: chars "M=M-1" :: chars "A=M" :: chars "D=M"
    :: ('@' :: base) :: chars "A=M"
    :: (List.replicate n (chars "A=A+1") ++ [chars "M=D"])

end VM

theorem popLines_length (seg base : List Char) (n : Nat) :
    (VM.popLines seg base n).length = n + 8 := by
  simp [VM.popLines]

theorem popLines_no_dda (seg base : List Char) (n : Nat) :
    chars "D=D+A" ∉ VM.popLines seg base n := by
  intro hmem
  simp only [VM.popLines, List.mem_cons, List.mem_append, List.mem_replicate,
    List.mem_singleton] at hmem
  rcases hmem with h | h | h | h | h | h | h | ⟨-, h⟩ | h <;>
    first
      | exact absurd h (by decide)
      | exact cons_ne_cons_of_ne (by decide) h

/-! ## Assembler: classifier, field extractors and encoder
(assembler.py, classes `Parser` and `Code`) -/

namespace Asm

/-- The `DEST` alternatives, in the order of the regex on line 17. -/
def DESTS : List (List Char) :=
  [chars "M", chars "D", chars "MD", chars "A", chars "AM", chars "AD",
   chars "AMD"]

/-- The `COMP` alternatives, in the order of the regex on line 15. -/
def COMPS : List (List Char) :=
  [chars "0", chars "1", chars "-1", chars "D", chars "A", chars "!D",
   chars "!A", chars "-D", chars "-A", chars "D+1", chars "A+1", chars "D-1",
   chars "A-1", chars "D+A", chars "D-A", chars "A-D", chars "D&A",
   chars "D|A", chars "M", chars "!M", chars "-M", chars "M+1", chars "M-1",
   chars "D+M", chars "D-M", chars "M-D", chars "D&M", chars "D|M"]

/-- The `JUMP` alternatives, in the order of the regex on line 16. -/
def JUMPS : List (List Char) :=
  [chars "JGT", chars "JEQ", chars "JGE", chars "JLT", chars "JNE",
   chars "JLE", chars "JMP"]

/-- The four classifications of `Parser.commandType` (lines 10-13). -/
inductive CmdT where
  | aCmd | cCmd | lCmd | uCmd
deriving Repr, DecidableEq

/-- `^@.+$`: an `@` followed by at least one character. -/
def aShape : List Char → Bool
  | '@' :: _ :: _ => true
  | _ => false

/-- `^\(.+\)$`: a parenthesis pair around at least one character. -/
def lShape : List Char → Bool
  | '(' :: rest => decide (2 ≤ rest.length) && (rest.getLast? == some ')')
  | _ => false

/-- The anchored C-instruction regex of line 76
(`^(DEST)=(COMP)$|^(COMP);(JUMP)$`): with backtracking it accepts exactly
the strings admitting such a decomposition. -/
def matchesC (s : List Char) : Bool :=
  DESTS.any (fun d => COMPS.any (fun c => s == d ++ '=' :: c))
    || COMPS.any (fun c => JUMPS.any (fun j => s == c ++ ';' :: j))

/-- `Parser.commandType` (lines 73-81): A, then C, then L, else unknown. -/
def commandType (s : List Char) : CmdT :=
  if aShape s then CmdT.aCmd
  else if matchesC s then CmdT.cCmd
  else if lShape s then CmdT.lCmd
  else CmdT.uCmd

/-- `Parser.symbol` (lines 91-98): the group of `^@(.+)$` or `^\((.+)\)$`. -/
def symbol (s : List Char) : Option (List Char) :=
  if aShape s then some s.tail
  else if lShape s then some s.tail.dropLast
  else none

/-- `Parser.dest` (lines 108-112): `re.match('^(DEST)=')` — the first
alternative, in regex order, that is followed by `=`. -/
def destField (s : List Char) : Option (List Char) :=
  DESTS.find? (fun d => (d ++ ['=']).isPrefixOf s)

/-- The scan of `re.search('=(COMP)$', s)`: the leftmost `=` whose entire
remaining suffix is a `COMP` alternative. -/
def compSearchEq : List Char → Option (List Char)
  | [] => none
  | c :: rest =>
    if c == '=' && COMPS.contains rest then some rest else compSearchEq rest

/-- `Parser.comp` (lines 122-130): first `re.match('^(COMP);')`, else
`re.search('=(COMP)$')`. -/
def compField (s : List Char) : Option (List Char) :=
  match COMPS.find? (fun c => (c ++ [';']).isPrefixOf s) with
  | some c => some c
  | none => compSearchEq s

/-- `Parser.jump` (lines 140-144): `re.search('(JUMP)$')`. -/
def jumpField (s : List Char) : Option (List Char) :=
  JUMPS.find? (fun j => j.isSuffixOf s)

/-- `Code.dest` (lines 157-174). -/
def destCode : Option (List Char) → Option (List Char)
  | none => some (chars "000")
  | some m =>
    if m = chars "M" then some (chars "001")
    else if m = chars "D" then some (chars "010")
    else if m = chars "MD" then some (chars "011")
    else if m = chars "A" then some (chars "100")
    else if m = chars "AM" then some (chars "101")
    else if m = chars "AD" then some (chars "110")
    else if m = chars "AMD" then some (chars "111")
    else none

/-- `Code.comp` (lines 181-238); `None` input falls through every
comparison and returns `None`. -/
def compCode : Option (List Char) → Option (List Char)
  | none => none
  | some m =>
    if m = chars "0" then some (chars "0101010")
    else if m = chars "1" then some (chars "0111111")
    else if m = chars "-1" then some (chars "0111010")
    else if m = chars "D" then some (chars "0001100")
    else if m = chars "A" then some (chars "0110000")
    else if m = chars "!D" then some (chars "0001101")
    else if m = chars "!A" then some (chars "0110001")
    else if m = chars "-D" then some (chars "0001111")
    else if m = chars "-A" then some (chars "0110011")
    else if m = chars "D+1" then some (chars "0011111")
    else if m = chars "A+1" then some (chars "0110111")
    else if m = chars "D-1" then some (chars "0001110")
    else if m = chars "A-1" then some (chars "0110010")
    else if m = chars "D+A" then some (chars "0000010")
    else if m = chars "D-A" then some (chars "0010011")
    else if m = chars "A-D" then some (chars "0000111")
    else if m = chars "D&A" then some (chars "0000000")
    else if m = chars "D|A" then some (chars "0010101")
    else if m = chars "M" then some (chars "1110000")
    else if m = chars "!M" then some (chars "1110001")
    else if m = chars "-M" then some (chars "1110011")
    else if m = chars "M+1" then some (chars "1110111")
    else if m = chars "M-1" then some (chars "1110010")
    else if m = chars "D+M" then some (chars "1000010")
    else if m = chars "D-M" then some (chars "1010011")
    else if m = chars "M-D" then some (chars "1000111")
    else if m = chars "D&M" then some (chars "1000000")
    else if m = chars "D|M" then some (chars "1010101")
    else none

/-- `Code.jump` (lines 246-263). -/
def jumpCode : Option (List Char) → Option (List Char)
  | none => some (chars "000")
  | some m =>
    if m = chars "JGT" then some (chars "001")
    else if m = chars "JEQ" then some (chars "010")
    else if m = chars "JGE" then some (chars "011")
    else if m = chars "JLT" then some (chars "100")
    else if m = chars "JNE" then some (chars "101")
    else if m = chars "JLE" then some (chars "110")
    else if m = chars "JMP" then some (chars "111")
    else none

/-- The C-instruction word of line 382
(`'111'+code.comp(comp)+code.dest(dest)+code.jump(jump)`); `none` models
the `TypeError` crash when a lookup returns `None`. -/
def emitC (s : List Char) : Option (List Char) :=
  match compCode (compField s), destCode (destField s), jumpCode (jumpField s) with
  | some c, some d, some j => some (chars "111" ++ c ++ d ++ j)
  | _, _, _ => none

end Asm

namespace Asm

/-- The symbol table (`SymbolTable._table`): an association list standing
in for the Python dict. -/
abbrev SymTable : Type := List (List Char × Nat)

/-- Dict assignment `table[symbol] = address` (`SymbolTable.addEntry`). -/
def stInsert : SymTable → List Char → Nat → SymTable
  | [], k, v => [(k, v)]
  | (k', v') :: rest, k, v =>
    if k' = k then (k, v) :: rest else (k', v') :: stInsert rest k v

/-- Dict lookup (`SymbolTable.getAddress` / `contains`). -/
def stLookup : SymTable → List Char → Option Nat
  | [], _ => none
  | (k', v') :: rest, k => if k' = k then some v' else stLookup rest k

/-- `SymbolTable.__init__` (lines 278-289): predefined symbols plus
`R0..R15`. -/
def initialTable : SymTable :=
  [(chars "SP", 0), (chars "LCL", 1), (chars "ARG", 2), (chars "THIS", 3),
   (chars "THAT", 4), (chars "SCREEN", 16384), (chars "KBD", 24576)]
    ++ (List.range 16).map (fun i => ('R' :: natToDec i, i))

/-- The first pass (assembler.py lines 344-353): label lines bind
`name -> romAddr` without incrementing; every other line increments
`romAddr`. -/
def firstPass : List (List Char) → SymTable → Nat → SymTable
  | [], t, _ => t
  | l :: ls, t, rom =>
    if commandType l = CmdT.lCmd then
      match symbol l with
      | some name => firstPass ls (stInsert t name rom) rom
      | none => firstPass ls t rom
    else firstPass ls t (rom + 1)

/-- Python `int(s)` on a cleaned symbol: succeeds exactly on a nonempty
all-digit string. -/
def parseInt (s : List Char) : Option Nat :=
  if s ≠ [] ∧ s.all (fun c => c.isDigit) then some (ofDigits 8 s) else none

/-- The A-instruction resolution of the second pass (lines 385-403):
`re.match('\D+', symbol)` tests whether the first character is a
non-digit; then table lookup or fresh allocation at `ramAddr`; otherwise
`int(symbol)` (whose `ValueError` on a malformed symbol is `none`).
Returns the resolved value, the updated table and the updated `ramAddr`. -/
def resolveA (t : SymTable) (ram : Nat) : List Char → Option (Nat × SymTable × Nat)
  | [] => none
  | c :: rest =>
    if ¬ c.isDigit then
      match stLookup t (c :: rest) with
      | some v => some (v, t, ram)
      | none => some (ram, stInsert t (c :: rest) ram, ram + 1)
    else
      match parseInt (c :: rest) with
      | some n => some (n, t, ram)
      | none => none

/-- The second pass (lines 371-413): C-instructions emit their encoded
word, A-instructions resolve and emit `'0' + dec2bin(value)`, all other
lines emit nothing; `none` models the uncaught exceptions (`TypeError` on
a failed mnemonic lookup, `ValueError` from `int`). -/
def secondPass : List (List Char) → SymTable → Nat → Option (List (List Char))
  | [], _, _ => some []
  | l :: ls, t, ram =>
    if commandType l = CmdT.cCmd then
      match emitC l with
      | some w => (secondPass ls t ram).map (fun ws => w :: ws)
      | none => none
    else if commandType l = CmdT.aCmd then
      match symbol l with
      | some sym =>
        match resolveA t ram sym with
        | some (v, t', ram') =>
          (secondPass ls t' ram').map (fun ws => ('0' :: dec2bin v) :: ws)
        | none => none
      | none => none
    else secondPass ls t ram

/-- `main` (lines 344-415): first pass from `romAddr = 0` over the
pre-seeded table, then second pass from `ramAddr = 16`. -/
def assemble (lines : List (List Char)) : Option (List (List Char)) :=
  secondPass lines (firstPass lines initialTable 0) 16

/-- Observer for C2: the `(symbol, address)` pairs freshly allocated by
the second pass, in allocation order (same branch structure as
`secondPass`/`resolveA`, recorded at the `addEntry` call on line 401). -/
def allocs : List (List Char) → SymTable → Nat → List (List Char × Nat)
  | [], _, _ => []
  | l :: ls, t, ram =>
    if commandType l = CmdT.cCmd then allocs ls t ram
    else if commandType l = CmdT.aCmd then
      match symbol l with
      | some sym =>
        match sym with
        | [] => allocs ls t ram
        | c :: rest =>
          if ¬ c.isDigit then
            match stLookup t (c :: rest) with
            | some _ => allocs ls t ram
            | none =>
              (c :: rest, ram) :: allocs ls (stInsert t (c :: rest) ram) (ram + 1)
          else allocs ls t ram
      | none => allocs ls t ram
    else allocs ls t ram

/-- Instruction count of a line list: what the first pass adds to
`romAddr` (label lines add nothing, every other line adds one). -/
def countInstr : List (List Char) → Nat
  | [] => 0
  | l :: ls => (if commandType l = CmdT.lCmd then 0 else 1) + countInstr ls

end Asm

theorem stLookup_stInsert_self (t : Asm.SymTable) (k : List Char) (v : Nat) :
    Asm.stLookup (Asm.stInsert t k v) k = some v := by
  induction t with
  | nil => simp [Asm.stInsert, Asm.stLookup]
  | cons p rest ih =>
    obtain ⟨k', v'⟩ := p
    by_cases h : k' = k
    · simp [Asm.stInsert, Asm.stLookup, h]
    · simp [Asm.stInsert, Asm.stLookup, h, ih]

theorem stLookup_stInsert_ne (t : Asm.SymTable) (k k' : List Char) (v : Nat)
    (h : k ≠ k') :
    Asm.stLookup (Asm.stInsert t k v) k' = Asm.stLookup t k' := by
  induction t with
  | nil => simp [Asm.stInsert, Asm.stLookup, h]
  | cons p rest ih =>
    obtain ⟨k0, v0⟩ := p
    by_cases h0 : k0 = k
    · subst h0
      simp [Asm.stInsert, Asm.stLookup, h]
    · simp [Asm.stInsert, Asm.stLookup, h0, ih]

/-- The first pass leaves a name's binding alone over a suffix that
declares no label with that name. -/
theorem firstPass_preserves (name : List Char) :
    ∀ (post : List (List Char)) (t : Asm.SymTable) (rom : Nat),
      (∀ l' ∈ post, Asm.commandType l' = Asm.CmdT.lCmd →
        Asm.symbol l' ≠ some name) →
      Asm.stLookup (Asm.firstPass post t rom) name = Asm.stLookup t name := by
  intro post
  induction post with
  | nil => intro t rom _; rfl
  | cons l ls ih =>
    intro t rom h
    rw [Asm.firstPass]
    by_cases hl : Asm.commandType l = Asm.CmdT.lCmd
    · rw [if_pos hl]
      cases hsym : Asm.symbol l with
      | none =>
        exact ih t rom (fun l' hm => h l' (List.mem_cons_of_mem _ hm))
      | some n' =>
        rw [ih _ rom (fun l' hm => h l' (List.mem_cons_of_mem _ hm))]
        apply stLookup_stInsert_ne
        intro hkeq
        exact (h l (List.mem_cons_self _ _) hl) (by rw [hsym, hkeq])
    · rw [if_neg hl]
      exact ih t _ (fun l' hm => h l' (List.mem_cons_of_mem _ hm))

/-- A label line buried in the stream binds its name to `rom` plus the
number of non-label lines before it, provided no later label reuses the
name. -/
theorem firstPass_label_addr :
    ∀ (pre : List (List Char)) (l : List Char) (post : List (List Char))
      (t : Asm.SymTable) (rom : Nat) (name : List Char),
      Asm.commandType l = Asm.CmdT.lCmd →
      Asm.symbol l = some name →
      (∀ l' ∈ post, Asm.commandType l' = Asm.CmdT.lCmd →
        Asm.symbol l' ≠ some name) →
      Asm.stLookup (Asm.firstPass (pre ++ l :: post) t rom) name
        = some (rom + Asm.countInstr pre) := by
  intro pre
  induction pre with
  | nil =>
    intro l post t rom name hl hsym hpost
    rw [List.nil_append, Asm.firstPass, if_pos hl, hsym,
      firstPass_preserves name post _ rom hpost, stLookup_stInsert_self]
    simp [Asm.countInstr]
  | cons p pre ih =>
    intro l post t rom name hl hsym hpost
    rw [List.cons_append, Asm.firstPass]
    by_cases hp : Asm.commandType p = Asm.CmdT.lCmd
    · rw [if_pos hp]
      cases hps : Asm.symbol p with
      | none =>
        rw [ih l post t rom name hl hsym hpost]
        simp [Asm.countInstr, hp]
      | some n' =>
        rw [ih l post _ rom name hl hsym hpost]
        simp [Asm.countInstr, hp]
    · rw [if_neg hp, ih l post t (rom + 1) name hl hsym hpost]
      have : Asm.countInstr (p :: pre) = 1 + Asm.countInstr pre := by
        simp [Asm.countInstr, hp]
      rw [this]
      congr 1
      omega

/-- Fresh variables are allocated at consecutive addresses, in order of
first appearance. -/
theorem allocs_consecutive :
    ∀ (lines : List (List Char)) (t : Asm.SymTable) (ram : Nat),
      (Asm.allocs lines t ram).map Prod.snd
        = List.range' ram (Asm.allocs lines t ram).length := by
  intro lines
  induction lines with
  | nil => intro t ram; rfl
  | cons l ls ih =>
    intro t ram
    rw [Asm.allocs]
    split
    · exact ih t ram
    split
    · split
      · split
        · exact ih t ram
        · split
          · split
            · exact ih t ram
            · simp only [List.map_cons, List.length_cons, ih]
              rw [List.range'_succ]
          · exact ih t ram
      · exact ih t ram
    · exact ih t ram

/-! ## Claim C5 support: totality of the C-instruction encoding -/

namespace Asm

/-- Boolean check behind C5: the three lookups succeed with the right
widths and the word is binary. -/
def checkC (s : List Char) : Bool :=
  match compCode (compField s), destCode (destField s), jumpCode (jumpField s) with
  | some c, some d, some j =>
    decide (c.length = 7) && decide (d.length = 3) && decide (j.length = 3)
      && (chars "111" ++ c ++ d ++ j).all (fun ch => ch == '0' || ch == '1')
  | _, _, _ => false

/-- The spec's comp table (spec.md section 4.3), verbatim. -/
def specCompTable : List (List Char × List Char) :=
  [(chars "0", chars "0101010"), (chars "1", chars "0111111"),
   (chars "-1", chars "0111010"), (chars "D", chars "0001100"),
   (chars "A", chars "0110000"), (chars "!D", chars "0001101"),
   (chars "!A", chars "0110001"), (chars "-D", chars "0001111"),
   (chars "-A", chars "0110011"), (chars "D+1", chars "0011111"),
   (chars "A+1", chars "0110111"), (chars "D-1", chars "0001110"),
   (chars "A-1", chars "0110010"), (chars "D+A", chars "0000010"),
   (chars "D-A", chars "0010011"), (chars "A-D", chars "0000111"),
   (chars "D&A", chars "0000000"), (chars "D|A", chars "0010101"),
   (chars "M", chars "1110000"), (chars "!M", chars "1110001"),
   (chars "-M", chars "1110011"), (chars "M+1", chars "1110111"),
   (chars "M-1", chars "1110010"), (chars "D+M", chars "1000010"),
   (chars "D-M", chars "1010011"), (chars "M-D", chars "1000111"),
   (chars "D&M", chars "1000000"), (chars "D|M", chars "1010101")]

/-- The spec's dest table (spec.md section 4.3), verbatim; the absent row
is the `destCode none` case. -/
def specDestTable : List (List Char × List Char) :=
  [(chars "M", chars "001"), (chars "D", chars "010"),
   (chars "MD", chars "011"), (chars "A", chars "100"),
   (chars "AM", chars "101"), (chars "AD", chars "110"),
   (chars "AMD", chars "111")]

/-- The spec's jump table (spec.md section 4.3), verbatim; the absent row
is the `jumpCode none` case. -/
def specJumpTable : List (List Char × List Char) :=
  [(chars "JGT", chars "001"), (chars "JEQ", chars "010"),
   (chars "JGE", chars "011"), (chars "JLT", chars "100"),
   (chars "JNE", chars "101"), (chars "JLE", chars "110"),
   (chars "JMP", chars "111")]

/-- Spec-table lookup. -/
def specLookup (tbl : List (List Char × List Char)) (m : List Char) :
    Option (List Char) :=
  (tbl.find? (fun p => p.1 == m)).map Prod.snd

end Asm

theorem checkC_sound (s : List Char) (h : Asm.checkC s = true) :
    ∃ c d j, Asm.compCode (Asm.compField s) = some c
      ∧ Asm.destCode (Asm.destField s) = some d
      ∧ Asm.jumpCode (Asm.jumpField s) = some j
      ∧ c.length = 7 ∧ d.length = 3 ∧ j.length = 3
      ∧ Asm.emitC s = some (chars "111" ++ c ++ d ++ j)
      ∧ (chars "111" ++ c ++ d ++ j).length = 16
      ∧ ∀ ch ∈ chars "111" ++ c ++ d ++ j, ch = '0' ∨ ch = '1' := by
  unfold Asm.checkC at h
  split at h
  case _ c d j hc hd hj =>
    simp only [Bool.and_eq_true, decide_eq_true_eq, List.all_eq_true] at h
    obtain ⟨⟨⟨h7, h3d⟩, h3j⟩, hbin⟩ := h
    refine ⟨c, d, j, hc, hd, hj, h7, h3d, h3j, ?_, ?_, ?_⟩
    · unfold Asm.emitC
      rw [hc, hd, hj]
    · simp [List.length_append, h7, h3d, h3j, chars]
    · intro ch hch
      have := hbin ch hch
      rcases Bool.or_eq_true_iff.mp this with h0 | h1
      · exact Or.inl (beq_iff_eq.mp h0)
      · exact Or.inr (beq_iff_eq.mp h1)
  case _ => exact absurd h (by simp)

theorem checkC_all :
    ((Asm.DESTS.all fun d => Asm.COMPS.all fun c => Asm.checkC (d ++ '=' :: c))
      && (Asm.COMPS.all fun c => Asm.JUMPS.all fun j =>
            Asm.checkC (c ++ ';' :: j))) = true := by
  decide

theorem matchesC_decomp (s : List Char) (h : Asm.matchesC s = true) :
    (∃ d ∈ Asm.DESTS, ∃ c ∈ Asm.COMPS, s = d ++ '=' :: c)
      ∨ (∃ c ∈ Asm.COMPS, ∃ j ∈ Asm.JUMPS, s = c ++ ';' :: j) := by
  unfold Asm.matchesC at h
  rcases Bool.or_eq_true_iff.mp h with h1 | h1
  · left
    obtain ⟨d, hd, h2⟩ := List.any_eq_true.mp h1
    obtain ⟨c, hc, h3⟩ := List.any_eq_true.mp h2
    exact ⟨d, hd, c, hc, beq_iff_eq.mp h3⟩
  · right
    obtain ⟨c, hc, h2⟩ := List.any_eq_true.mp h1
    obtain ⟨j, hj, h3⟩ := List.any_eq_true.mp h2
    exact ⟨c, hc, j, hj, beq_iff_eq.mp h3⟩

theorem commandType_cCmd (s : List Char)
    (h : Asm.commandType s = Asm.CmdT.cCmd) : Asm.matchesC s = true := by
  unfold Asm.commandType at h
  by_cases h1 : Asm.aShape s = true
  · rw [if_pos h1] at h
    exact absurd h (by decide)
  · rw [if_neg h1] at h
    by_cases h2 : Asm.matchesC s = true
    · exact h2
    · rw [if_neg h2] at h
      by_cases h3 : Asm.lShape s = true
      · rw [if_pos h3] at h
        exact absurd h (by decide)
      · rw [if_neg h3] at h
        exact absurd h (by decide)

/-! ## The claims -/

/-- C1: `writeCall f n` emits, in this order, a push of the unique return
label `f$returnAddr<k>` where `k` is the counter value used for this call
(the lazily initialized `__retAddrCnt`, bumped once per call), pushes of
LCL, ARG, THIS, THAT in that order, `ARG = SP - n - 5` with the `-n`
subtraction omitted exactly when `n = 0`, `LCL = SP`, an unconditional
jump to `f`, and finally the label declaration `(f$returnAddr<k>)`;
distinct counter values give distinct labels, so two calls to the same
function get different suffixes. -/
theorem C1_writeCall_protocol (f : List Char) (n : Nat) (rc : Option Nat) :
    (VM.writeCall f n rc).2 = some (VM.nextRetCnt rc) ∧
    VM.nextRetCnt (VM.writeCall f n rc).2 = VM.nextRetCnt rc + 1 ∧
    (VM.writeCall f n rc).1 =
      [chars "// call " ++ f ++ ' ' :: natToDec n,
       '@' :: VM.retLabel f (VM.nextRetCnt rc),
       chars "D=A", chars "@SP", chars "A=M", chars "M=D", chars "@SP", chars "M=M+1",
       chars "// push LCL", chars "@LCL", chars "D=M", chars "@SP", chars "A=M",
       chars "M=D", chars "@SP", chars "M=M+1",
       chars "// push ARG", chars "@ARG", chars "D=M", chars "@SP", chars "A=M",
       chars "M=D", chars "@SP", chars "M=M+1",
       chars "// push THIS", chars "@THIS", chars "D=M", chars "@SP", chars "A=M",
       chars "M=D", chars "@SP", chars "M=M+1",
       chars "// push THAT", chars "@THAT", chars "D=M", chars "@SP", chars "A=M",
       chars "M=D", chars "@SP", chars "M=M+1",
       chars "// ARG = SP-numArgs-5", chars "@SP", chars "D=M"]
      ++ (if n = 0 then [] else ['@' :: natToDec n, chars "D=D-A"])
      ++ [chars "@5", chars "D=D-A", chars "@ARG", chars "M=D",
          chars "// LCL = SP", chars "@SP", chars "D=M", chars "@LCL", chars "M=D",
          chars "// goto " ++ f, '@' :: f, chars "0;JMP",
          chars "// declare label for the return address",
          '(' :: VM.retLabel f (VM.nextRetCnt rc) ++ [')']] ∧
    (∀ j k : Nat, j ≠ k → VM.retLabel f j ≠ VM.retLabel f k) := by
  refine ⟨rfl, rfl, ?_, ?_⟩
  · by_cases h : n = 0
    · subst h
      rfl
    · simp [VM.writeCall, VM.pushVal, VM.incSP, VM.savedPtrs, h]
      exact ⟨rfl, rfl, rfl, rfl, rfl, rfl, rfl, rfl⟩
  · intro j k hjk heq
    apply hjk
    unfold VM.retLabel at heq
    rw [List.append_assoc, List.append_assoc] at heq
    exact natToDec_inj (List.append_cancel_left (List.append_cancel_left heq))

/-- C1 witness: the protocol at `call Bar.inc 1` from a fresh counter;
labels for counters 0 and 1 differ. -/
theorem C1_witness :
    (VM.writeCall (chars "Bar.inc") 1 none).2 = some 0 ∧
    VM.retLabel (chars "Bar.inc") 0 ≠ VM.retLabel (chars "Bar.inc") 1 :=
  ⟨(C1_writeCall_protocol (chars "Bar.inc") 1 none).1,
   (C1_writeCall_protocol (chars "Bar.inc") 1 none).2.2.2 0 1 (by decide)⟩

/-- C2: the two passes resolve symbols as claimed: a label line binds its
name to `rom` plus the count of non-label lines before it (labels do not
increment the address counter, any other line does); in the second pass an
all-numeric symbol is a literal, a known symbol resolves to its stored
value, an unseen symbol is bound at the current `ramAddr` which then
increments; starting from 16 the freshly allocated addresses are exactly
16, 17, ... in order of first appearance. -/
theorem C2_two_pass_resolution :
    (∀ (pre : List (List Char)) (l : List Char) (post : List (List Char))
        (t : Asm.SymTable) (rom : Nat) (name : List Char),
      Asm.commandType l = Asm.CmdT.lCmd →
      Asm.symbol l = some name →
      (∀ l' ∈ post, Asm.commandType l' = Asm.CmdT.lCmd →
        Asm.symbol l' ≠ some name) →
      Asm.stLookup (Asm.firstPass (pre ++ l :: post) t rom) name
        = some (rom + Asm.countInstr pre)) ∧
    (∀ (l : List Char) (ls : List (List Char)) (t : Asm.SymTable) (rom : Nat),
      Asm.commandType l ≠ Asm.CmdT.lCmd →
      Asm.firstPass (l :: ls) t rom = Asm.firstPass ls t (rom + 1)) ∧
    (∀ (c : Char) (rest : List Char) (t : Asm.SymTable) (ram : Nat),
      ((c :: rest).all (fun ch => ch.isDigit)) = true →
      Asm.resolveA t ram (c :: rest) = some (ofDigits 8 (c :: rest), t, ram)) ∧
    (∀ (c : Char) (rest : List Char) (t : Asm.SymTable) (ram v : Nat),
      c.isDigit = false → Asm.stLookup t (c :: rest) = some v →
      Asm.resolveA t ram (c :: rest) = some (v, t, ram)) ∧
    (∀ (c : Char) (rest : List Char) (t : Asm.SymTable) (ram : Nat),
      c.isDigit = false → Asm.stLookup t (c :: rest) = none →
      Asm.resolveA t ram (c :: rest)
        = some (ram, Asm.stInsert t (c :: rest) ram, ram + 1)) ∧
    (∀ (lines : List (List Char)) (t : Asm.SymTable),
      (Asm.allocs lines t 16).map Prod.snd
        = List.range' 16 (Asm.allocs lines t 16).length) := by
  refine ⟨firstPass_label_addr, ?_, ?_, ?_, ?_, fun lines t => allocs_consecutive lines t 16⟩
  · intro l ls t rom h
    rw [Asm.firstPass, if_neg h]
  · intro c rest t ram hall
    have hc : c.isDigit = true := by
      have := (List.all_eq_true.mp hall) c (List.mem_cons_self _ _)
      simpa using this
    simp [Asm.resolveA, hc, Asm.parseInt, hall]
  · intro c rest t ram v hc hlook
    simp [Asm.resolveA, hc, hlook]
  · intro c rest t ram hc hlook
    simp [Asm.resolveA, hc, hlook]

/-- C2 witness: `(LOOP)` after one instruction binds to ROM address 1;
`@37` is a literal; `@i` allocates RAM address 16 and then 17 next. -/
theorem C2_witness :
    Asm.stLookup (Asm.firstPass ([chars "@2"] ++ chars "(LOOP)" :: []) [] 0)
        (chars "LOOP") = some (0 + Asm.countInstr [chars "@2"]) ∧
    Asm.resolveA [] 16 ('3' :: ['7']) = some (ofDigits 8 ('3' :: ['7']), [], 16) ∧
    Asm.resolveA [(chars "i", 16)] 17 ('i' :: []) = some (16, [(chars "i", 16)], 17) ∧
    Asm.resolveA [] 16 ('i' :: []) = some (16, Asm.stInsert [] ('i' :: []) 16, 17) :=
  ⟨C2_two_pass_resolution.1 [chars "@2"] (chars "(LOOP)") [] [] 0 (chars "LOOP")
      (by decide) (by decide) (by simp),
   C2_two_pass_resolution.2.2.1 '3' ['7'] [] 16 (by decide),
   C2_two_pass_resolution.2.2.2.1 'i' [] [(chars "i", 16)] 17 16 (by decide) (by decide),
   C2_two_pass_resolution.2.2.2.2.1 'i' [] [] 16 (by decide) (by decide)⟩

/-- C3 counterexample: the claim says `setFileName` leaves
`current_function` unchanged, but the source (line 185) resets
`__functionName` to the new short name: from a state whose current
function is `Foo.main`, `setFileName("Bar.vm")` changes it to `Bar`. -/
theorem C3_counterexample :
    ¬ ((VM.setFileName ⟨chars "Foo", chars "Foo.main", some 3, some 5⟩
        (chars "Bar.vm")).functionName
      = (⟨chars "Foo", chars "Foo.main", some 3, some 5⟩ :
          VM.WState).functionName) := by
  decide

/-- C3 amended: `setFileName` leaves `cmp_counter` and `ret_counter`
unchanged but resets BOTH `file_short_name` AND `current_function` to the
new file's short name; in a multi-file translation every file after the
first is preceded by a `setFileName` effect, while the first file's state
comes from the CodeWriter constructor plus the bootstrap, with no
`setFileName`. -/
theorem C3_amended_setFileName_sequencing :
    (∀ (st : VM.WState) (f : List Char),
      (VM.setFileName st f).cmpCnt = st.cmpCnt ∧
      (VM.setFileName st f).retCnt = st.retCnt ∧
      (VM.setFileName st f).fileName = VM.rstrip (chars ".vm") (VM.baseName f) ∧
      (VM.setFileName st f).functionName
        = VM.rstrip (chars ".vm") (VM.baseName f)) ∧
    (∀ (st : VM.WState) (name : List Char) (cmds : List VM.VmCmd)
        (fs : List (List Char × List VM.VmCmd)),
      VM.translateRest st ((name, cmds) :: fs) =
        ((VM.processCmds (VM.setFileName st name) cmds).1
            ++ (VM.translateRest
                (VM.processCmds (VM.setFileName st name) cmds).2 fs).1,
          (VM.translateRest
            (VM.processCmds (VM.setFileName st name) cmds).2 fs).2)) ∧
    (∀ (outName n0 : List Char) (c0 : List VM.VmCmd)
        (fs : List (List Char × List VM.VmCmd)),
      VM.translate outName ((n0, c0) :: fs) =
        some ((VM.writeInit (VM.initWriter outName)).1
            ++ (VM.processCmds (VM.writeInit (VM.initWriter outName)).2 c0).1
            ++ (VM.translateRest
                (VM.processCmds
                  (VM.writeInit (VM.initWriter outName)).2 c0).2 fs).1,
          (VM.translateRest
            (VM.processCmds
              (VM.writeInit (VM.initWriter outName)).2 c0).2 fs).2)) := by
  exact ⟨fun st f => ⟨rfl, rfl, rfl, rfl⟩, fun st name cmds fs => rfl,
    fun outName n0 c0 fs => rfl⟩

/-- C4: the code's `rstrip('.vm')` strips a trailing character SET, not
the `.vm` suffix: for input file `Sum.vm` the short name becomes `Su`
(the stem's final `m` is also eaten), so `push static 3` emits `@Su.3`
where the claim requires `@Sum.3` (exact suffix strip, `stripSuffix`). -/
theorem C4_static_mangling_rstrip_bug :
    VM.rstrip (chars ".vm") (VM.baseName (chars "Sum.vm")) = chars "Su" ∧
    VM.stripSuffix (chars ".vm") (VM.baseName (chars "Sum.vm")) = chars "Sum" ∧
    (VM.setFileName ⟨[], [], none, none⟩ (chars "Sum.vm")).fileName = chars "Su" ∧
    VM.writePushPop true
        (VM.setFileName ⟨[], [], none, none⟩ (chars "Sum.vm")).fileName
        (chars "static") 3
      = [chars "// push static 3", chars "@Su.3", chars "D=M", chars "@SP",
         chars "A=M", chars "M=D", chars "@SP", chars "M=M+1"] ∧
    chars "Su" ≠ chars "Sum" := by
  refine ⟨by decide, by decide, by decide, by decide, by decide⟩

/-- C5: for every line the classifier accepts as a C-instruction, the
three mnemonic lookups succeed, and the emitted word is `111` followed by
the 7-bit comp code, the 3-bit dest code and the 3-bit jump code (absent
fields encode `000` inside `destCode`/`jumpCode`), 16 characters of
`0`/`1`; the comp, dest and jump codes agree with the spec's tables. -/
theorem C5_cInstruction_encoding (s : List Char)
    (h : Asm.commandType s = Asm.CmdT.cCmd) :
    (∃ c d j, Asm.compCode (Asm.compField s) = some c
      ∧ Asm.destCode (Asm.destField s) = some d
      ∧ Asm.jumpCode (Asm.jumpField s) = some j
      ∧ c.length = 7 ∧ d.length = 3 ∧ j.length = 3
      ∧ Asm.emitC s = some (chars "111" ++ c ++ d ++ j)
      ∧ (chars "111" ++ c ++ d ++ j).length = 16
      ∧ ∀ ch ∈ chars "111" ++ c ++ d ++ j, ch = '0' ∨ ch = '1') ∧
    (∀ m ∈ Asm.COMPS, Asm.compCode (some m)
      = Asm.specLookup Asm.specCompTable m) ∧
    (∀ m ∈ Asm.DESTS, Asm.destCode (some m)
      = Asm.specLookup Asm.specDestTable m) ∧
    (∀ m ∈ Asm.JUMPS, Asm.jumpCode (some m)
      = Asm.specLookup Asm.specJumpTable m) ∧
    Asm.destCode none = some (chars "000") ∧
    Asm.jumpCode none = some (chars "000") := by
  refine ⟨?_, by decide, by decide, by decide, rfl, rfl⟩
  apply checkC_sound
  rcases matchesC_decomp s (commandType_cCmd s h) with
    ⟨d, hd, c, hc, rfl⟩ | ⟨c, hc, j, hj, rfl⟩
  · have h1 := (Bool.and_eq_true_iff.mp checkC_all).1
    exact (List.all_eq_true.mp ((List.all_eq_true.mp h1) d hd)) c hc
  · have h2 := (Bool.and_eq_true_iff.mp checkC_all).2
    exact (List.all_eq_true.mp ((List.all_eq_true.mp h2) c hc)) j hj

/-- C5 witness: the encoding facts at the accepted line `D=M+1`. -/
theorem C5_witness :
    Asm.commandType (chars "D=M+1") = Asm.CmdT.cCmd ∧
    Asm.emitC (chars "D=M+1") = some (chars "1111110111010000") :=
  ⟨by decide,
   by
    obtain ⟨c, d, j, hc, hd, hj, _, _, _, hw, _, _⟩ :=
      (C5_cInstruction_encoding (chars "D=M+1") (by decide)).1
    rw [hw]
    rw [show Asm.compCode (Asm.compField (chars "D=M+1"))
        = some (chars "1110111") from by decide] at hc
    rw [show Asm.destCode (Asm.destField (chars "D=M+1"))
        = some (chars "010") from by decide] at hd
    rw [show Asm.jumpCode (Asm.jumpField (chars "D=M+1"))
        = some (chars "000") from by decide] at hj
    rw [(Option.some.inj hc).symm, (Option.some.inj hd).symm,
      (Option.some.inj hj).symm]
    decide⟩

/-- C6: a comparison command (eq/gt/lt) emits, after the binary prologue,
`D=M-D`, then `M=-1`, then the conditional jump `D;J<OP>` to the label
`<OP><k>` where `k` is the current `cmp_counter` value (incremented
afterwards), then the fall-through reset of the stack top to 0, then the
label declaration; labels built from distinct counter values are distinct,
also across the three operators. -/
theorem C6_comparison_labels :
    (∀ (cmd : List Char) (cc : Option Nat),
      cmd = chars "eq" ∨ cmd = chars "gt" ∨ cmd = chars "lt" →
      VM.writeArithmetic cmd cc =
        ((chars "// " ++ cmd)
          :: chars "@SP" :: chars "M=M-1" :: chars "A=M" :: chars "D=M"
          :: chars "@SP" :: chars "M=M-1" :: chars "A=M"
          :: chars "D=M-D" :: chars "M=-1"
          :: ('@' :: (cmd.map Char.toUpper ++ natToDec (VM.curCmpCnt cc)))
          :: (chars "D;" ++ 'J' :: cmd.map Char.toUpper)
          :: chars "@SP" :: chars "A=M" :: chars "M=0"
          :: ('(' :: (cmd.map Char.toUpper ++ natToDec (VM.curCmpCnt cc)) ++ [')'])
          :: chars "@SP" :: chars "M=M+1" :: [],
         some (VM.curCmpCnt cc + 1))) ∧
    (∀ (c1 c2 : List Char) (k1 k2 : Nat),
      (c1 = chars "eq" ∨ c1 = chars "gt" ∨ c1 = chars "lt") →
      (c2 = chars "eq" ∨ c2 = chars "gt" ∨ c2 = chars "lt") →
      k1 ≠ k2 →
      c1.map Char.toUpper ++ natToDec k1 ≠ c2.map Char.toUpper ++ natToDec k2) := by
  constructor
  · intro cmd cc h
    rcases h with rfl | rfl | rfl <;> rfl
  · intro c1 c2 k1 k2 h1 h2 hne heq
    rcases h1 with rfl | rfl | rfl <;> rcases h2 with rfl | rfl | rfl <;>
      first
        | exact hne (natToDec_inj (List.append_cancel_left heq))
        | simp [show ((chars "eq").map Char.toUpper) = ['E', 'Q'] from rfl,
            show ((chars "gt").map Char.toUpper) = ['G', 'T'] from rfl,
            show ((chars "lt").map Char.toUpper) = ['L', 'T'] from rfl] at heq

/-- C6 witness: two consecutive `eq` commands use `EQ0` then `EQ1`, and
those labels differ. -/
theorem C6_witness :
    (VM.writeArithmetic (chars "eq") none).2 = some 1 ∧
    (VM.writeArithmetic (chars "eq") (some 1)).2 = some 2 ∧
    (chars "eq").map Char.toUpper ++ natToDec 0
      ≠ (chars "eq").map Char.toUpper ++ natToDec 1 := by
  refine ⟨?_, ?_, C6_comparison_labels.2 (chars "eq") (chars "eq") 0 1
    (Or.inl rfl) (Or.inl rfl) (by decide)⟩
  · rw [C6_comparison_labels.1 (chars "eq") none (Or.inl rfl)]
    rfl
  · rw [C6_comparison_labels.1 (chars "eq") (some 1) (Or.inl rfl)]
    rfl

/-- C8: the VM classifier sends a one-token line that is neither `return`
nor an arithmetic opcode, and any line of more than three tokens, to the
`C_UNKNOWN` fatal branch (which then crashes on the undefined name
`element` before printing its diagnostic). -/
theorem C8_invalid_vm_command_classified_unknown :
    VM.commandType (chars "foo") = VM.CmdK.unknown ∧
    VM.commandType (chars "push constant 1 2") = VM.CmdK.unknown ∧
    VM.commandType (chars "banana split") = VM.CmdK.unknown := by
  decide

/-- C9 counterexample: a line matching no shape (`foo`) does not make
assembly fail; the assembler still succeeds and silently emits output for
the surrounding instructions only. -/
theorem C9_counterexample :
    Asm.commandType (chars "foo") = Asm.CmdT.uCmd ∧
    Asm.assemble [chars "@1", chars "foo", chars "@2"]
      = some [chars "0000000000000001", chars "0000000000000010"] := by
  decide

/-- C9 amended: a cleaned line matching none of the three shapes is
classified `U_COMMAND` and assembly continues: the first pass counts it
like an instruction (incrementing `romAddr`), and the second pass emits
nothing for it, silently producing output without it. -/
theorem C9_amended_invalid_line_silently_skipped
    (l : List Char) (ls : List (List Char)) (t : Asm.SymTable) (rom ram : Nat)
    (h : Asm.commandType l = Asm.CmdT.uCmd) :
    Asm.firstPass (l :: ls) t rom = Asm.firstPass ls t (rom + 1) ∧
    Asm.secondPass (l :: ls) t ram = Asm.secondPass ls t ram := by
  constructor
  · rw [Asm.firstPass, if_neg (by simp [h])]
  · rw [Asm.secondPass, if_neg (by simp [h]), if_neg (by simp [h])]

/-- C9 witness: the amended behavior at the concrete line `foo`. -/
theorem C9_witness :
    Asm.firstPass [chars "foo"] [] 0 = Asm.firstPass [] [] 1 ∧
    Asm.secondPass [chars "foo"] [] 16 = Asm.secondPass [] [] 16 :=
  C9_amended_invalid_line_silently_skipped (chars "foo") [] [] 0 16 (by decide)

/-- C7: the A-word is `0` followed by the 15-bit left-zero-padded binary
encoding (`bitsFixed 15`) of the resolved address; addresses above
`2^15 - 1` are silently truncated to their low 15 bits; the boundary
input 32767 encodes as `0111111111111111`. -/
theorem C7_aWord_encoding :
    (∀ n, aWord n = '0' :: bitsFixed 15 n) ∧
    (∀ n, dec2bin n = dec2bin (n % 2 ^ 15)) ∧
    (∀ n, (aWord n).length = 16) ∧
    (∀ n, ∀ ch ∈ aWord n, ch = '0' ∨ ch = '1') ∧
    aWord 32767 = chars "0111111111111111" := by
  refine ⟨?_, ?_, ?_, ?_, by decide⟩
  · intro n
    rw [aWord, dec2bin_eq_bitsFixed]
  · intro n
    rw [dec2bin_eq_bitsFixed, dec2bin_eq_bitsFixed, ← bitsFixed_mod]
  · intro n
    simp [aWord, dec2bin_eq_bitsFixed, bitsFixed_length]
  · intro n ch hch
    rw [aWord, dec2bin_eq_bitsFixed] at hch
    rcases List.mem_cons.mp hch with rfl | hm
    · exact Or.inl rfl
    · exact bitsFixed_chars 15 n ch hm

/-- C7 witness: the encoding facts applied at address 21845 and the
membership fact at its leading character. -/
theorem C7_witness :
    aWord 21845 = '0' :: bitsFixed 15 21845 ∧
    ('1' = '0' ∨ '1' = '1') :=
  ⟨C7_aWord_encoding.1 21845,
   C7_aWord_encoding.2.2.2.1 21845 '1' (by decide)⟩

/-- C10: `pop` of argument/local/this/that with index `n` first decrements
SP and loads the popped value into D, then addresses via the base pointer
(`A=M`) followed by exactly `n` repetitions of `A=A+1` before the final
`M=D`; the instruction count is `n + 8` (linear in `n`), the addressing
part never writes D, and no `D=D+A` constant addressing appears. -/
theorem C10_pop_addressing (seg fn : List Char) (n : Nat)
    (h : seg = chars "argument" ∨ seg = chars "local" ∨ seg = chars "this"
      ∨ seg = chars "that") :
    VM.writePushPop false fn seg n = VM.popLines seg (VM.segBase seg) n ∧
    (VM.writePushPop false fn seg n).length = n + 8 ∧
    (∀ l ∈ ('@' :: VM.segBase seg) :: chars "A=M"
        :: List.replicate n (chars "A=A+1"),
      ¬ (chars "D=").isPrefixOf l = true) ∧
    chars "D=D+A" ∉ VM.writePushPop false fn seg n := by
  have hstruct : VM.writePushPop false fn seg n
      = VM.popLines seg (VM.segBase seg) n := by
    rcases h with rfl | rfl | rfl | rfl <;> rfl
  refine ⟨hstruct, ?_, ?_, ?_⟩
  · rw [hstruct]
    exact popLines_length seg (VM.segBase seg) n
  · intro l hl
    simp only [List.mem_cons] at hl
    rcases hl with rfl | rfl | hrep
    · exact not_prefix_of_head_ne (by decide)
    · decide
    · rw [List.eq_of_mem_replicate hrep]
      decide
  · rw [hstruct]
    exact popLines_no_dda seg (VM.segBase seg) n

/-- C10 witness: the pop layout at `pop local 2`. -/
theorem C10_witness :
    VM.writePushPop false (chars "X") (chars "local") 2
      = VM.popLines (chars "local") (VM.segBase (chars "local")) 2 ∧
    (VM.writePushPop false (chars "X") (chars "local") 2).length = 2 + 8 :=
  ⟨(C10_pop_addressing (chars "local") (chars "X") 2 (Or.inr (Or.inl rfl))).1,
   (C10_pop_addressing (chars "local") (chars "X") 2 (Or.inr (Or.inl rfl))).2.1⟩
